import Mathlib

/-!
Verification of the reviewer-assignment storage layer of the
PR_Reviewer_Assignment_Service repository (`internal/storage/storage.go`).

The relational store is modelled as a `DB` record of table rows (lists);
each storage method becomes a pure function from a `DB` (plus the explicit
clock value and the outcome of the random draw) to a result together with
the successor `DB`.  SQL behaviour is embedded directly:
`QueryRow ... WHERE pk = x` becomes `List.find?`, `EXISTS` becomes
`List.any`, `ON CONFLICT DO UPDATE` becomes an in-place map or an append,
`ORDER BY` becomes `List.insertionSort`, and a transaction rollback on
error returns the original `DB` unchanged.  Randomness is parametrised:
`rng.Shuffle` becomes an arbitrary function assumed (in theorems) to
permute its input, and `rng.Intn n` becomes `r % n` for an arbitrary
natural number `r`.
-/

namespace ReviewService

/-- Status values of `models.PRStatus`: `"OPEN"` or `"MERGED"`. -/
inductive PRStatus where
  | Open : PRStatus
  | Merged : PRStatus
deriving DecidableEq, Repr

/-- Row of the `users` table (`models.User`). -/
structure User where
  id : String
  username : String
  teamName : String
  isActive : Bool
deriving DecidableEq, Repr

/-- Team payload (`models.Team`) as received by `CreateTeam`. -/
structure Team where
  name : String
  members : List User
deriving DecidableEq, Repr

/-- Row of the `pull_requests` table. -/
structure PRRow where
  id : String
  name : String
  authorID : String
  status : PRStatus
  createdAt : Nat
  mergedAt : Option Nat
deriving DecidableEq, Repr

/-- Row of the `pr_reviewers` table. -/
structure ReviewerRow where
  prID : String
  reviewerID : String
  assignedAt : Nat
deriving DecidableEq, Repr

/-- Pull-request value (`models.PullRequest`) as returned to callers. -/
structure PullRequest where
  id : String
  name : String
  authorID : String
  status : PRStatus
  assignedReviewers : List String
  createdAt : Nat
  mergedAt : Option Nat
deriving DecidableEq, Repr

/-- Request payload `models.CreatePRRequest`. -/
structure CreatePRRequest where
  ID : String
  name : String
  authorID : String
deriving DecidableEq, Repr

/-- Request payload `models.ReassignRequest`. -/
structure ReassignRequest where
  PRID : String
  oldReviewer : String
deriving DecidableEq, Repr

/-- The relational store: one list per table. -/
structure DB where
  teams : List String
  users : List User
  pullRequests : List PRRow
  prReviewers : List ReviewerRow
deriving DecidableEq, Repr

/-- The tagged error values of `storage.go` (`ErrTeamExists` …); `sqlError`
stands for any unclassified storage error the code only wraps. -/
inductive Err where
  | teamExists | prExists | prMerged | notFound
  | notAssigned | noCandidate | authorNotFound | sqlError
deriving DecidableEq, Repr

/-- Helper `Storage.contains`: linear scan of a string slice. -/
def contains : List String → String → Bool
  | [], _ => false
  | s :: rest, item => if s = item then true else contains rest item

/-- Helper `Storage.replaceInSlice`: copy the slice, substituting `new` for every
entry equal to `old` (positions preserved). -/
def replaceInSlice (slice : List String) (old new : String) : List String :=
  slice.map (fun item => if item = old then new else item)

/-- Selection `Storage.selectRandomReviewers`: shuffle a copy of the candidates and
take at most `max` of them; the shuffle (`rng.Shuffle`) is abstracted as
the function `shuffle`. -/
def selectRandomReviewers (shuffle : List String → List String)
    (candidates : List String) (max : Nat) : List String :=
  if candidates.length = 0 then []
  else
    let shuffled := shuffle candidates
    if shuffled.length ≤ max then shuffled else shuffled.take max

/-- Selection `Storage.selectRandomReviewer`: pick index `rng.Intn len`, abstracted
as `r % len` for an arbitrary `r`; empty input falls back to `""`. -/
def selectRandomReviewer (r : Nat) (candidates : List String) : String :=
  if candidates.length = 0 then ""
  else candidates.getD (r % candidates.length) ""

/-- Lookup `QueryRow ... FROM users WHERE user_id = $1` (`user_id` is the
primary key, so the first match is the row). -/
def findUser (db : DB) (userID : String) : Option User :=
  db.users.find? (fun u => u.id == userID)

/-- The candidate query of `CreatePR`:
`SELECT user_id FROM users WHERE team_name = $1 AND is_active = true AND user_id != $2`. -/
def candidatePool (db : DB) (author : User) : List String :=
  (db.users.filter
    (fun u => u.teamName == author.teamName && u.isActive && u.id != author.id)).map
    (fun u => u.id)

/-- The reviewer rows inserted by `CreatePR`'s transaction: one row per
selected reviewer, with `assigned_at` increasing in insertion order. -/
def assignRows (prID : String) (reviewers : List String) (now : Nat) : List ReviewerRow :=
  reviewers.enum.map (fun p => { prID := prID, reviewerID := p.2, assignedAt := now + p.1 })

/-- Operation `Storage.CreatePR`: resolve the author (else `AUTHOR_NOT_FOUND`), build
the candidate pool, pick up to two reviewers, then transactionally check
the id (`PR_EXISTS` on conflict) and insert the PR row plus its reviewer
rows. -/
def CreatePR (db : DB) (shuffle : List String → List String)
    (req : CreatePRRequest) (now : Nat) : Except Err PullRequest × DB :=
  match findUser db req.authorID with
  | none => (.error .authorNotFound, db)
  | some author =>
    let reviewers := selectRandomReviewers shuffle (candidatePool db author) 2
    if db.pullRequests.any (fun p => p.id == req.ID) then
      (.error .prExists, db)
    else
      let prRow : PRRow :=
        { id := req.ID, name := req.name, authorID := req.authorID,
          status := .Open, createdAt := now, mergedAt := none }
      (.ok { id := req.ID, name := req.name, authorID := req.authorID,
             status := .Open, assignedReviewers := reviewers,
             createdAt := now, mergedAt := none },
       { db with pullRequests := db.pullRequests ++ [prRow],
                 prReviewers := db.prReviewers ++ assignRows req.ID reviewers now })

/-- The `ON CONFLICT (user_id) DO UPDATE` insert of `CreateTeam` for one
member: update the existing row's `username`, `team_name` and `is_active`
if the id is taken, otherwise append a fresh row. -/
def upsertUser (users : List User) (m : User) (tname : String) : List User :=
  if users.any (fun u => u.id == m.id) then
    users.map (fun u =>
      if u.id == m.id then
        { u with username := m.username, teamName := tname, isActive := m.isActive }
      else u)
  else
    users ++ [{ m with teamName := tname }]

/-- The member-insertion loop of `CreateTeam`. -/
def upsertUsers (users : List User) (members : List User) (tname : String) : List User :=
  members.foldl (fun acc m => upsertUser acc m tname) users

/-- Operation `Storage.CreateTeam`: insert the team name (`TEAM_EXISTS` on primary-key
conflict, rolling back), then upsert every member; commit. -/
def CreateTeam (db : DB) (team : Team) : Except Err Unit × DB :=
  if db.teams.contains team.name then
    (.error .teamExists, db)
  else
    (.ok (),
     { db with teams := db.teams ++ [team.name],
               users := upsertUsers db.users team.members team.name })

/-- Comparison used by `ORDER BY assigned_at` on reviewer rows. -/
def assignedLe (a b : ReviewerRow) : Prop := a.assignedAt ≤ b.assignedAt

instance : DecidableRel assignedLe := fun a b => Nat.decLe a.assignedAt b.assignedAt

instance : IsTotal ReviewerRow assignedLe := ⟨fun a b => Nat.le_total a.assignedAt b.assignedAt⟩

instance : IsTrans ReviewerRow assignedLe := ⟨fun _ _ _ h h' => Nat.le_trans h h'⟩

/-- Query `Storage.getPRReviewers`:
`SELECT reviewer_id FROM pr_reviewers WHERE pr_id = $1 ORDER BY assigned_at`. -/
def getPRReviewers (db : DB) (prID : String) : List String :=
  (List.insertionSort assignedLe (db.prReviewers.filter (fun rw => rw.prID == prID))).map
    (fun rw => rw.reviewerID)

/-- Lookup `Storage.getPRWithReviewers`: point lookup of the PR row (`NOT_FOUND`
if absent) with its reviewer list attached. -/
def getPRWithReviewers (db : DB) (prID : String) : Except Err PullRequest :=
  match db.pullRequests.find? (fun p => p.id == prID) with
  | none => .error .notFound
  | some row =>
    .ok { id := row.id, name := row.name, authorID := row.authorID,
          status := row.status, assignedReviewers := getPRReviewers db prID,
          createdAt := row.createdAt, mergedAt := row.mergedAt }

/-- Operation `Storage.MergePR`: load the PR (`NOT_FOUND` if absent); if already
merged return it unchanged, otherwise set status `MERGED` and stamp
`merged_at = now` both in the store and on the returned value. -/
def MergePR (db : DB) (prID : String) (now : Nat) : Except Err PullRequest × DB :=
  match getPRWithReviewers db prID with
  | .error e => (.error e, db)
  | .ok pr =>
    if pr.status = .Merged then (.ok pr, db)
    else
      (.ok { pr with status := .Merged, mergedAt := some now },
       { db with pullRequests := db.pullRequests.map (fun p =>
           if p.id == prID then { p with status := .Merged, mergedAt := some now } else p) })

/-- Query `Storage.findReplacementCandidates`: active users of `teamName` whose
id differs from the author, from the replaced reviewer, and from every
other currently assigned reviewer (the dynamically built `AND user_id != $n`
clauses). -/
def findReplacementCandidates (db : DB) (teamName authorID : String)
    (currentReviewers : List String) (excludeReviewer : String) : List String :=
  (db.users.filter (fun u =>
      u.teamName == teamName && u.isActive && u.id != authorID &&
      u.id != excludeReviewer &&
      !((currentReviewers.filter (fun rv => rv != excludeReviewer)).contains u.id))).map
    (fun u => u.id)

/-- Operation `Storage.ReassignReviewer`: load the PR (`NOT_FOUND`), reject merged
PRs (`PR_MERGED`) and unassigned old reviewers (`NOT_ASSIGNED`), look up
the old reviewer's team (an unclassified error if the row is missing),
build the replacement pool (`NO_CANDIDATE` if empty), draw one candidate,
then transactionally delete the old assignment row and insert the new one;
the returned PR carries the in-memory `replaceInSlice` substitution. -/
def ReassignReviewer (db : DB) (r : Nat) (req : ReassignRequest) (now : Nat) :
    Except Err (PullRequest × String) × DB :=
  match getPRWithReviewers db req.PRID with
  | .error e => (.error e, db)
  | .ok pr =>
    if pr.status = .Merged then (.error .prMerged, db)
    else if !(contains pr.assignedReviewers req.oldReviewer) then
      (.error .notAssigned, db)
    else
      match findUser db req.oldReviewer with
      | none => (.error .sqlError, db)
      | some oldUser =>
        let candidateIDs := findReplacementCandidates db oldUser.teamName pr.authorID
            pr.assignedReviewers req.oldReviewer
        if candidateIDs.length = 0 then (.error .noCandidate, db)
        else
          let newReviewer := selectRandomReviewer r candidateIDs
          (.ok ({ pr with assignedReviewers :=
                    replaceInSlice pr.assignedReviewers req.oldReviewer newReviewer },
                newReviewer),
           { db with prReviewers :=
               (db.prReviewers.filter (fun rw =>
                 !(rw.prID == req.PRID && rw.reviewerID == req.oldReviewer))) ++
               [{ prID := req.PRID, reviewerID := newReviewer, assignedAt := now }] })

/-- Comparison used by `ORDER BY created_at DESC` on PR rows. -/
def createdDesc (a b : PRRow) : Prop := b.createdAt ≤ a.createdAt

instance : DecidableRel createdDesc := fun a b => Nat.decLe b.createdAt a.createdAt

instance : IsTotal PRRow createdDesc := ⟨fun a b => (Nat.le_total b.createdAt a.createdAt)⟩

instance : IsTrans PRRow createdDesc := ⟨fun _ _ _ h h' => Nat.le_trans h' h⟩

/-- Header projection used by `GetUserReviews` (the reviewer list is not
scanned there, so it stays empty). -/
def rowToPullRequest (row : PRRow) : PullRequest :=
  { id := row.id, name := row.name, authorID := row.authorID,
    status := row.status, assignedReviewers := [],
    createdAt := row.createdAt, mergedAt := row.mergedAt }

/-- Query `Storage.GetUserReviews`: `NOT_FOUND` if the user id is absent;
otherwise the PRs joined with `pr_reviewers` on `reviewer_id = userID`,
ordered by `created_at DESC`. -/
def GetUserReviews (db : DB) (userID : String) : Except Err (List PullRequest) :=
  if !(db.users.any (fun u => u.id == userID)) then .error .notFound
  else
    .ok ((List.insertionSort createdDesc
            (db.pullRequests.filter (fun pr =>
              db.prReviewers.any (fun rw => rw.prID == pr.id && rw.reviewerID == userID)))).map
          rowToPullRequest)

/-! Concrete data used to exercise the operations at specific inputs. -/

/-- Active user `A` of team `T`. -/
def userA : User := { id := "A", username := "alice", teamName := "T", isActive := true }

/-- Active user `B` of team `T`. -/
def userB : User := { id := "B", username := "bob", teamName := "T", isActive := true }

/-- Inactive user `C` of team `T`. -/
def userC : User := { id := "C", username := "carol", teamName := "T", isActive := false }

/-- Active user `D` of team `T`. -/
def userD : User := { id := "D", username := "dave", teamName := "T", isActive := true }

/-- Active user `E`, sole member of team `S`. -/
def userE : User := { id := "E", username := "erin", teamName := "S", isActive := true }

/-- Store with teams `T` and `S` and no pull requests. -/
def dbT : DB :=
  { teams := ["T", "S"], users := [userA, userB, userC, userD, userE],
    pullRequests := [], prReviewers := [] }

/-- Store `dbT` plus an open PR `p1` authored by `A` with reviewer `B`. -/
def dbP : DB :=
  { dbT with
      pullRequests := [{ id := "p1", name := "x", authorID := "A",
                         status := .Open, createdAt := 5, mergedAt := none }],
      prReviewers := [{ prID := "p1", reviewerID := "B", assignedAt := 5 }] }

/-- Store `dbP` with `p1` already merged at time `7`. -/
def dbM : DB :=
  { dbP with
      pullRequests := [{ id := "p1", name := "x", authorID := "A",
                         status := .Merged, createdAt := 5, mergedAt := some 7 }] }

/-! General lemmas about the embedded helpers. -/

/-- The linear scan `contains` decides list membership. -/
theorem contains_iff (l : List String) (x : String) : contains l x = true ↔ x ∈ l := by
  induction l with
  | nil => simp [contains]
  | cons a rest ih =>
    by_cases hax : a = x
    · subst hax; simp [contains]
    · simp [contains, hax, ih, Ne.symm hax]

/-- Elements taken from a list stay in the list. -/
theorem mem_of_mem_take {α : Type} {x : α} {n : Nat} :
    ∀ {l : List α}, x ∈ l.take n → x ∈ l := by
  intro l
  induction l generalizing n with
  | nil => simp
  | cons a rest ih =>
    cases n with
    | zero => simp
    | succ k =>
      intro hx
      rcases List.mem_cons.mp hx with h | h
      · exact List.mem_cons.mpr (Or.inl h)
      · exact List.mem_cons.mpr (Or.inr (ih h))

/-- In-bounds `getD` returns an element of the list. -/
theorem getD_mem {α : Type} (d : α) :
    ∀ (l : List α) (i : Nat), i < l.length → l.getD i d ∈ l := by
  intro l
  induction l with
  | nil => intro i hi; simp at hi
  | cons a rest ih =>
    intro i hi
    cases i with
    | zero => simp [List.getD]
    | succ k =>
      have hk : k < rest.length := Nat.lt_of_succ_lt_succ hi
      exact List.mem_cons.mpr (Or.inr (ih k hk))

/-- A nonempty pool makes `selectRandomReviewer` pick one of its elements. -/
theorem selectRandomReviewer_mem (r : Nat) (candidates : List String)
    (h : candidates ≠ []) : selectRandomReviewer r candidates ∈ candidates := by
  have hlen : candidates.length ≠ 0 := by
    intro h0; exact h (List.eq_nil_of_length_eq_zero h0)
  have hpos : 0 < candidates.length := Nat.pos_of_ne_zero hlen
  have hlt : r % candidates.length < candidates.length := Nat.mod_lt r hpos
  simp only [selectRandomReviewer, if_neg hlen]
  exact getD_mem "" candidates _ hlt

/-- The number of reviewers picked by `selectRandomReviewers` is the
minimum of the cap and the pool size. -/
theorem selectRandomReviewers_length (shuffle : List String → List String)
    (hsh : ∀ l : List String, (shuffle l).Perm l)
    (candidates : List String) (k : Nat) :
    (selectRandomReviewers shuffle candidates k).length = min k candidates.length := by
  have hlen : (shuffle candidates).length = candidates.length :=
    (hsh candidates).length_eq
  by_cases h0 : candidates.length = 0
  · simp [selectRandomReviewers, h0]
  · simp only [selectRandomReviewers, if_neg h0]
    by_cases hle : (shuffle candidates).length ≤ k
    · rw [if_pos hle, hlen]
      omega
    · rw [if_neg hle, List.length_take, hlen]

/-- Every reviewer picked by `selectRandomReviewers` comes from the pool. -/
theorem selectRandomReviewers_subset (shuffle : List String → List String)
    (hsh : ∀ l : List String, (shuffle l).Perm l)
    (candidates : List String) (k : Nat) (x : String)
    (hx : x ∈ selectRandomReviewers shuffle candidates k) : x ∈ candidates := by
  by_cases h0 : candidates.length = 0
  · simp [selectRandomReviewers, h0] at hx
  · simp only [selectRandomReviewers, if_neg h0] at hx
    by_cases hle : (shuffle candidates).length ≤ k
    · rw [if_pos hle] at hx
      exact (hsh candidates).mem_iff.mp hx
    · rw [if_neg hle] at hx
      exact (hsh candidates).mem_iff.mp (mem_of_mem_take hx)

/-- Membership in the `CreatePR` candidate pool unfolds to a user row with
the queried properties. -/
theorem mem_candidatePool (db : DB) (author : User) (rid : String)
    (h : rid ∈ candidatePool db author) :
    ∃ u ∈ db.users, u.id = rid ∧ u.teamName = author.teamName ∧
      u.isActive = true ∧ rid ≠ author.id := by
  simp only [candidatePool, List.mem_map, List.mem_filter] at h
  rcases h with ⟨u, ⟨hmem, hprops⟩, hid⟩
  simp only [Bool.and_eq_true, beq_iff_eq, bne_iff_ne, ne_eq] at hprops
  exact ⟨u, hmem, hid, hprops.1.1, hprops.1.2, hid ▸ hprops.2⟩

/-- A resolved user row carries the queried id and is a stored row. -/
theorem findUser_some (db : DB) (x : String) (u : User)
    (h : findUser db x = some u) : u ∈ db.users ∧ u.id = x := by
  have hmem := List.mem_of_find?_eq_some h
  have hp := List.find?_some h
  exact ⟨hmem, by simpa using hp⟩

/-! Claim theorems. -/

/-- C9: `CreatePR` resolves the author before anything else, so a missing
author yields `AUTHOR_NOT_FOUND` (with the store untouched) no matter
whether the requested PR id is already taken. -/
theorem CreatePR_author_check_first (db : DB) (shuffle : List String → List String)
    (req : CreatePRRequest) (now : Nat)
    (h : findUser db req.authorID = none) :
    CreatePR db shuffle req now = (.error .authorNotFound, db) := by
  simp [CreatePR, h]

/-- Witness for C9: with `p1` already taken in `dbP`, a request for id `p1`
by the absent author `Z` still fails with `AUTHOR_NOT_FOUND`. -/
theorem CreatePR_author_check_first_witness :
    dbP.pullRequests.any (fun p => p.id == "p1") = true ∧
    CreatePR dbP (fun l => l) { ID := "p1", name := "y", authorID := "Z" } 6 =
      (.error .authorNotFound, dbP) :=
  ⟨by decide,
   CreatePR_author_check_first dbP (fun l => l)
     { ID := "p1", name := "y", authorID := "Z" } 6 (by decide)⟩

/-- C4: reassignment on a merged PR always fails with `PR_MERGED` and
returns the store unchanged. -/
theorem ReassignReviewer_merged_fails (db : DB) (r : Nat) (req : ReassignRequest)
    (now : Nat) (pr : PullRequest)
    (hpr : getPRWithReviewers db req.PRID = .ok pr)
    (hm : pr.status = .Merged) :
    ReassignReviewer db r req now = (.error .prMerged, db) := by
  simp [ReassignReviewer, hpr, hm]

/-- Witness for C4: reassigning reviewer `B` on the merged PR `p1` of `dbM`
fails with `PR_MERGED` and leaves `dbM` unchanged. -/
theorem ReassignReviewer_merged_fails_witness :
    ReassignReviewer dbM 0 { PRID := "p1", oldReviewer := "B" } 9 =
      (.error .prMerged, dbM) :=
  ReassignReviewer_merged_fails dbM 0 { PRID := "p1", oldReviewer := "B" } 9
    { id := "p1", name := "x", authorID := "A", status := .Merged,
      assignedReviewers := ["B"], createdAt := 5, mergedAt := some 7 }
    (by rfl) (by rfl)

/-- Counterexample to C5 as stated: in `dbP` the id `p1` is already taken,
yet a `CreatePR` for `p1` by the absent author `Z` fails with
`AUTHOR_NOT_FOUND`, not with `PR_EXISTS`. -/
theorem CreatePR_prExists_cex :
    dbP.pullRequests.any (fun p => p.id == "p1") = true ∧
    (CreatePR dbP (fun l => l) { ID := "p1", name := "z2", authorID := "Z" } 6).1 =
      .error .authorNotFound ∧
    Err.authorNotFound ≠ Err.prExists :=
  ⟨by decide, by rfl, by decide⟩

/-- C5 (amended): once the author resolves, a `CreatePR` whose id is
already taken fails with `PR_EXISTS` and the store — in particular the
existing PR's row and reviewer assignments — is returned unchanged. -/
theorem CreatePR_prExists_after_author (db : DB) (shuffle : List String → List String)
    (req : CreatePRRequest) (now : Nat) (author : User)
    (hauthor : findUser db req.authorID = some author)
    (htaken : db.pullRequests.any (fun p => p.id == req.ID) = true) :
    CreatePR db shuffle req now = (.error .prExists, db) := by
  simp [CreatePR, hauthor, htaken]

/-- Witness for C5: a second `CreatePR` for the taken id `p1` by the
existing author `A` fails with `PR_EXISTS`, leaving `dbP` unchanged. -/
theorem CreatePR_prExists_after_author_witness :
    CreatePR dbP (fun l => l) { ID := "p1", name := "z2", authorID := "A" } 6 =
      (.error .prExists, dbP) :=
  CreatePR_prExists_after_author dbP (fun l => l)
    { ID := "p1", name := "z2", authorID := "A" } 6 userA (by decide) (by decide)

/-- Inversion of a successful `getPRWithReviewers`: there is a stored row
whose fields the returned PR copies, with the reviewer list attached. -/
theorem getPRWithReviewers_ok_inv (db : DB) (prID : String) (pr : PullRequest)
    (h : getPRWithReviewers db prID = .ok pr) :
    ∃ row, db.pullRequests.find? (fun p => p.id == prID) = some row ∧
      pr = { id := row.id, name := row.name, authorID := row.authorID,
             status := row.status, assignedReviewers := getPRReviewers db prID,
             createdAt := row.createdAt, mergedAt := row.mergedAt } := by
  cases hf : db.pullRequests.find? (fun p => p.id == prID) with
  | none => simp [getPRWithReviewers, hf] at h
  | some row =>
    simp only [getPRWithReviewers, hf, Except.ok.injEq] at h
    exact ⟨row, rfl, h.symm⟩

/-- Updating every row matching a key with an id-preserving function
commutes with looking the key up. -/
theorem find?_map_update (l : List PRRow) (prID : String) (g : PRRow → PRRow)
    (hg : ∀ p, (g p).id = p.id) :
    (l.map (fun p => if p.id == prID then g p else p)).find? (fun p => p.id == prID) =
      (l.find? (fun p => p.id == prID)).map g := by
  induction l with
  | nil => simp
  | cons a rest ih =>
    by_cases ha : a.id = prID
    · have hx : (if (a.id == prID) = true then g a else a) = g a := by simp [ha]
      have hpg : ((g a).id == prID) = true := by simp [hg, ha]
      have hpa : (a.id == prID) = true := by simp [ha]
      rw [List.map_cons, hx]
      simp only [List.find?_cons, hpg, hpa]
      rfl
    · have hx : (if (a.id == prID) = true then g a else a) = a := by simp [ha]
      have hpa : (a.id == prID) = false := by simp [ha]
      rw [List.map_cons, hx]
      simp only [List.find?_cons, hpa]
      exact ih

/-- C3: `MergePR` is idempotent — after a successful merge, merging again
returns exactly the same PR value and store with no error; and when the PR
was open, the first call set the status to `MERGED` and stamped the merge
time, leaving every other field unchanged. -/
theorem MergePR_idempotent (db : DB) (prID : String) (t1 t2 : Nat)
    (pr1 : PullRequest) (db1 : DB)
    (h : MergePR db prID t1 = (.ok pr1, db1)) :
    MergePR db1 prID t2 = (.ok pr1, db1) ∧
    pr1.status = .Merged ∧
    (∀ pr0, getPRWithReviewers db prID = .ok pr0 → pr0.status ≠ .Merged →
      pr1 = { pr0 with status := .Merged, mergedAt := some t1 }) := by
  cases heq : getPRWithReviewers db prID with
  | error e => simp [MergePR, heq] at h
  | ok pr =>
    by_cases hm : pr.status = .Merged
    · simp only [MergePR, heq, if_pos hm, Prod.mk.injEq, Except.ok.injEq] at h
      obtain ⟨h1, h2⟩ := h
      subst h1; subst h2
      refine ⟨by simp [MergePR, heq, hm], hm, ?_⟩
      intro pr0 h0 hne
      have hp : pr = pr0 := Except.ok.inj h0
      exact absurd (hp ▸ hm) hne
    · simp only [MergePR, heq, if_neg hm, Prod.mk.injEq, Except.ok.injEq] at h
      obtain ⟨h1, h2⟩ := h
      obtain ⟨row, hfind, hpr⟩ := getPRWithReviewers_ok_inv db prID pr heq
      subst hpr
      subst h1
      subst h2
      have hrid : (row.id == prID) = true := by
        have h' := List.find?_some hfind
        exact h'
      have hfind1 : ((db.pullRequests.map (fun p =>
          if p.id == prID then { p with status := .Merged, mergedAt := some t1 } else p)).find?
            (fun p => p.id == prID)) =
          some { row with status := .Merged, mergedAt := some t1 } := by
        rw [find?_map_update db.pullRequests prID
             (fun p => { p with status := .Merged, mergedAt := some t1 }) (fun _ => rfl), hfind]
        simp [hrid]
      have hget1 : getPRWithReviewers
          { db with pullRequests := db.pullRequests.map (fun p =>
              if p.id == prID then { p with status := .Merged, mergedAt := some t1 } else p) }
          prID =
          .ok { id := row.id, name := row.name, authorID := row.authorID,
                status := .Merged, assignedReviewers := getPRReviewers db prID,
                createdAt := row.createdAt, mergedAt := some t1 } := by
        have hproj : ({ db with pullRequests := db.pullRequests.map (fun p =>
            if p.id == prID then { p with status := .Merged, mergedAt := some t1 } else p) } :
              DB).pullRequests =
            db.pullRequests.map (fun p =>
              if p.id == prID then { p with status := .Merged, mergedAt := some t1 } else p) :=
          rfl
        simp only [getPRWithReviewers, hproj, hfind1]
        rfl
      refine ⟨?_, rfl, ?_⟩
      · simp only [MergePR]
        rw [hget1]
        rfl
      intro pr0 h0 _
      have hp := Except.ok.inj h0
      subst hp
      rfl

/-- Witness for C3: merging the already-merged `p1` of `dbM` (produced by
merging `p1` of `dbP` at time `7`) returns the same value and store. -/
theorem MergePR_idempotent_witness :
    MergePR dbM "p1" 9 =
      (.ok { id := "p1", name := "x", authorID := "A", status := .Merged,
             assignedReviewers := ["B"], createdAt := 5, mergedAt := some 7 }, dbM) ∧
    PRStatus.Merged = PRStatus.Merged ∧
    (∀ pr0, getPRWithReviewers dbP "p1" = .ok pr0 → pr0.status ≠ .Merged →
      ({ id := "p1", name := "x", authorID := "A", status := .Merged,
         assignedReviewers := ["B"], createdAt := 5,
         mergedAt := some 7 } : PullRequest) =
        { pr0 with status := .Merged, mergedAt := some 7 }) :=
  MergePR_idempotent dbP "p1" 7 9
    { id := "p1", name := "x", authorID := "A", status := .Merged,
      assignedReviewers := ["B"], createdAt := 5, mergedAt := some 7 }
    dbM (by rfl)

/-- Membership in the replacement pool unfolds to an active user row of
the team whose id avoids the author, the replaced reviewer, and every
current reviewer. -/
theorem mem_findReplacementCandidates (db : DB) (teamName authorID : String)
    (current : List String) (excl : String) (rid : String)
    (h : rid ∈ findReplacementCandidates db teamName authorID current excl) :
    ∃ u ∈ db.users, u.id = rid ∧ u.teamName = teamName ∧ u.isActive = true ∧
      rid ≠ authorID ∧ rid ≠ excl ∧ ∀ c ∈ current, rid ≠ c := by
  simp only [findReplacementCandidates, List.mem_map, List.mem_filter] at h
  rcases h with ⟨u, ⟨hmem, hprops⟩, hid⟩
  simp only [Bool.and_eq_true, beq_iff_eq, bne_iff_ne, ne_eq, Bool.not_eq_true] at hprops
  obtain ⟨⟨⟨⟨hteam, hact⟩, hauth⟩, hexcl⟩, hnotin⟩ := hprops
  subst hid
  refine ⟨u, hmem, rfl, hteam, hact, hauth, hexcl, ?_⟩
  intro c hc
  by_cases hcx : c = excl
  · exact hcx ▸ hexcl
  · intro hcontr
    have hcf : c ∈ current.filter (fun rv => rv != excl) := by
      simp [List.mem_filter, hc, hcx]
    rw [← hcontr] at hcf
    have : (current.filter (fun rv => rv != excl)).contains u.id = true :=
      List.elem_eq_true_of_mem hcf
    rw [this] at hnotin
    exact Bool.noConfusion hnotin

/-- Inversion of a successful `ReassignReviewer`: the guards all passed,
the new reviewer was drawn from the replacement pool, and the returned PR
carries the `replaceInSlice` substitution. -/
theorem ReassignReviewer_ok_inv (db : DB) (r : Nat) (req : ReassignRequest) (now : Nat)
    (pr : PullRequest) (s : String) (db' : DB)
    (h : ReassignReviewer db r req now = (.ok (pr, s), db')) :
    ∃ pr₀ oldUser,
      getPRWithReviewers db req.PRID = .ok pr₀ ∧
      pr₀.status ≠ .Merged ∧
      req.oldReviewer ∈ pr₀.assignedReviewers ∧
      findUser db req.oldReviewer = some oldUser ∧
      findReplacementCandidates db oldUser.teamName pr₀.authorID pr₀.assignedReviewers
        req.oldReviewer ≠ [] ∧
      s ∈ findReplacementCandidates db oldUser.teamName pr₀.authorID pr₀.assignedReviewers
        req.oldReviewer ∧
      pr = { pr₀ with assignedReviewers :=
               replaceInSlice pr₀.assignedReviewers req.oldReviewer s } := by
  cases heq : getPRWithReviewers db req.PRID with
  | error e => simp [ReassignReviewer, heq] at h
  | ok pr₀ =>
    by_cases hm : pr₀.status = .Merged
    · simp [ReassignReviewer, heq, hm] at h
    · by_cases hc : contains pr₀.assignedReviewers req.oldReviewer = true
      · cases hfu : findUser db req.oldReviewer with
        | none => simp [ReassignReviewer, heq, hm, hc, hfu] at h
        | some oldUser =>
          by_cases hlen : (findReplacementCandidates db oldUser.teamName pr₀.authorID
              pr₀.assignedReviewers req.oldReviewer).length = 0
          · simp [ReassignReviewer, heq, hm, hc, hfu, hlen] at h
          · simp only [ReassignReviewer, heq, hm, hc, hfu, hlen, Bool.not_true,
              Bool.false_eq_true, if_false, if_neg hlen, Prod.mk.injEq,
              Except.ok.injEq] at h
            obtain ⟨⟨hpr, hs⟩, hdb⟩ := h
            have hne : findReplacementCandidates db oldUser.teamName pr₀.authorID
                pr₀.assignedReviewers req.oldReviewer ≠ [] := by
              intro hnil
              rw [hnil] at hlen
              exact hlen rfl
            refine ⟨pr₀, oldUser, rfl, hm, (contains_iff _ _).mp hc, rfl, hne, ?_, ?_⟩
            · rw [← hs]
              exact selectRandomReviewer_mem r _ hne
            · rw [← hpr, ← hs]
      · simp [ReassignReviewer, heq, hm, hc] at h

/-- C2: a successful reassignment returns a new reviewer distinct from the
author, from the replaced reviewer, and from every reviewer assigned
before the call; the new reviewer is an active user of the old reviewer's
team; and the reviewer set keeps its size. -/
theorem ReassignReviewer_spec (db : DB) (r : Nat) (req : ReassignRequest) (now : Nat)
    (pr : PullRequest) (s : String) (db' : DB)
    (h : ReassignReviewer db r req now = (.ok (pr, s), db')) :
    ∃ pr₀ oldUser,
      getPRWithReviewers db req.PRID = .ok pr₀ ∧
      findUser db req.oldReviewer = some oldUser ∧
      s ≠ pr₀.authorID ∧ s ≠ req.oldReviewer ∧ s ∉ pr₀.assignedReviewers ∧
      (∃ u ∈ db.users, u.id = s ∧ u.isActive = true ∧ u.teamName = oldUser.teamName) ∧
      pr.assignedReviewers.length = pr₀.assignedReviewers.length := by
  obtain ⟨pr₀, oldUser, hget, _, _, hfu, _, hs, hpr⟩ :=
    ReassignReviewer_ok_inv db r req now pr s db' h
  obtain ⟨u, humem, huid, huteam, huact, hsauth, hsexcl, hsall⟩ :=
    mem_findReplacementCandidates db oldUser.teamName pr₀.authorID
      pr₀.assignedReviewers req.oldReviewer s hs
  refine ⟨pr₀, oldUser, hget, hfu, hsauth, hsexcl, ?_, ⟨u, humem, huid, huact, huteam⟩, ?_⟩
  · intro hmem
    exact (hsall s hmem) rfl
  · rw [hpr]
    simp [replaceInSlice]

/-- Witness for C2: reassigning `B` on `p1` of `dbP` yields the reviewer
`D`, who is active, on `B`'s team, and none of `A`, `B`, or the previous
reviewers. -/
theorem ReassignReviewer_spec_witness :
    ∃ pr₀ oldUser,
      getPRWithReviewers dbP "p1" = .ok pr₀ ∧
      findUser dbP "B" = some oldUser ∧
      "D" ≠ pr₀.authorID ∧ "D" ≠ "B" ∧ "D" ∉ pr₀.assignedReviewers ∧
      (∃ u ∈ dbP.users, u.id = "D" ∧ u.isActive = true ∧ u.teamName = oldUser.teamName) ∧
      (["D"] : List String).length = pr₀.assignedReviewers.length :=
  ReassignReviewer_spec dbP 0 { PRID := "p1", oldReviewer := "B" } 8
    { id := "p1", name := "x", authorID := "A", status := .Open,
      assignedReviewers := ["D"], createdAt := 5, mergedAt := none }
    "D"
    { dbP with prReviewers := [{ prID := "p1", reviewerID := "D", assignedAt := 8 }] }
    (by rfl)

/-- Entries of `replaceInSlice` at positions holding the old id become the
new id; all other positions are unchanged. -/
theorem replaceInSlice_getD (l : List String) (old new : String) :
    ∀ i, i < l.length →
      (replaceInSlice l old new).getD i "" =
        if l.getD i "" = old then new else l.getD i "" := by
  induction l with
  | nil => intro i hi; simp at hi
  | cons a rest ih =>
    intro i hi
    cases i with
    | zero => simp [replaceInSlice]
    | succ k =>
      have hk : k < rest.length := Nat.lt_of_succ_lt_succ hi
      simp only [replaceInSlice, List.map_cons, List.getD_cons_succ]
      exact ih k hk

/-- C6: the reviewer list returned by a successful reassignment is the
prior list with the old reviewer's id substituted by the new one at the
same position and every other entry (and its position) unchanged. -/
theorem ReassignReviewer_substitution (db : DB) (r : Nat) (req : ReassignRequest)
    (now : Nat) (pr : PullRequest) (s : String) (db' : DB)
    (h : ReassignReviewer db r req now = (.ok (pr, s), db')) :
    ∃ pr₀, getPRWithReviewers db req.PRID = .ok pr₀ ∧
      pr.assignedReviewers = replaceInSlice pr₀.assignedReviewers req.oldReviewer s ∧
      pr.assignedReviewers.length = pr₀.assignedReviewers.length ∧
      ∀ i, i < pr₀.assignedReviewers.length →
        pr.assignedReviewers.getD i "" =
          if pr₀.assignedReviewers.getD i "" = req.oldReviewer then s
          else pr₀.assignedReviewers.getD i "" := by
  obtain ⟨pr₀, _, hget, _, _, _, _, _, hpr⟩ :=
    ReassignReviewer_ok_inv db r req now pr s db' h
  have hrev : pr.assignedReviewers = replaceInSlice pr₀.assignedReviewers req.oldReviewer s := by
    rw [hpr]
  refine ⟨pr₀, hget, hrev, ?_, ?_⟩
  · rw [hrev]; simp [replaceInSlice]
  · intro i hi
    rw [hrev]
    exact replaceInSlice_getD pr₀.assignedReviewers req.oldReviewer s i hi

/-- Witness for C6: on `dbP`, reassigning `B` substitutes `D` at `B`'s
former position, the head of the one-element reviewer list. -/
theorem ReassignReviewer_substitution_witness :
    ∃ pr₀, getPRWithReviewers dbP "p1" = .ok pr₀ ∧
      (["D"] : List String) = replaceInSlice pr₀.assignedReviewers "B" "D" ∧
      (["D"] : List String).length = pr₀.assignedReviewers.length ∧
      ∀ i, i < pr₀.assignedReviewers.length →
        (["D"] : List String).getD i "" =
          if pr₀.assignedReviewers.getD i "" = "B" then "D"
          else pr₀.assignedReviewers.getD i "" :=
  ReassignReviewer_substitution dbP 0 { PRID := "p1", oldReviewer := "B" } 8
    { id := "p1", name := "x", authorID := "A", status := .Open,
      assignedReviewers := ["D"], createdAt := 5, mergedAt := none }
    "D"
    { dbP with prReviewers := [{ prID := "p1", reviewerID := "D", assignedAt := 8 }] }
    (by rfl)

/-- C10: a successful reassignment reaches the random draw only with a
nonempty candidate pool, and the returned reviewer id is an element of
that pool (never the empty-pool fallback value of
`selectRandomReviewer`). -/
theorem ReassignReviewer_pool_membership (db : DB) (r : Nat) (req : ReassignRequest)
    (now : Nat) (pr : PullRequest) (s : String) (db' : DB)
    (h : ReassignReviewer db r req now = (.ok (pr, s), db')) :
    ∃ pr₀ oldUser,
      getPRWithReviewers db req.PRID = .ok pr₀ ∧
      findUser db req.oldReviewer = some oldUser ∧
      findReplacementCandidates db oldUser.teamName pr₀.authorID pr₀.assignedReviewers
        req.oldReviewer ≠ [] ∧
      s ∈ findReplacementCandidates db oldUser.teamName pr₀.authorID pr₀.assignedReviewers
        req.oldReviewer := by
  obtain ⟨pr₀, oldUser, hget, _, _, hfu, hne, hs, _⟩ :=
    ReassignReviewer_ok_inv db r req now pr s db' h
  exact ⟨pr₀, oldUser, hget, hfu, hne, hs⟩

/-- Witness for C10: the reviewer `D` produced on `dbP` is an element of
the nonempty replacement pool `["D"]`. -/
theorem ReassignReviewer_pool_membership_witness :
    ∃ pr₀ oldUser,
      getPRWithReviewers dbP "p1" = .ok pr₀ ∧
      findUser dbP "B" = some oldUser ∧
      findReplacementCandidates dbP oldUser.teamName pr₀.authorID pr₀.assignedReviewers
        "B" ≠ [] ∧
      "D" ∈ findReplacementCandidates dbP oldUser.teamName pr₀.authorID
        pr₀.assignedReviewers "B" :=
  ReassignReviewer_pool_membership dbP 0 { PRID := "p1", oldReviewer := "B" } 8
    { id := "p1", name := "x", authorID := "A", status := .Open,
      assignedReviewers := ["D"], createdAt := 5, mergedAt := none }
    "D"
    { dbP with prReviewers := [{ prID := "p1", reviewerID := "D", assignedAt := 8 }] }
    (by rfl)

/-- C1: whenever the shuffle permutes its input, a successful `CreatePR`
never assigns the author, assigns exactly `min 2 |pool|` reviewers all of
whom are active members of the author's team at call time, and an empty
pool gives a successful creation with an empty reviewer set rather than an
error. -/
theorem CreatePR_reviewer_spec (db : DB) (shuffle : List String → List String)
    (req : CreatePRRequest) (now : Nat)
    (hsh : ∀ l : List String, (shuffle l).Perm l) :
    (∀ pr db', CreatePR db shuffle req now = (.ok pr, db') →
      ∃ author, findUser db req.authorID = some author ∧
        req.authorID ∉ pr.assignedReviewers ∧
        pr.assignedReviewers.length = min 2 (candidatePool db author).length ∧
        (∀ rid ∈ pr.assignedReviewers, ∃ u ∈ db.users,
          u.id = rid ∧ u.teamName = author.teamName ∧ u.isActive = true) ∧
        (candidatePool db author = [] → pr.assignedReviewers = [])) ∧
    (∀ author, findUser db req.authorID = some author →
      db.pullRequests.any (fun p => p.id == req.ID) = false →
      candidatePool db author = [] →
      ∃ db', CreatePR db shuffle req now =
        (.ok { id := req.ID, name := req.name, authorID := req.authorID,
               status := .Open, assignedReviewers := [], createdAt := now,
               mergedAt := none }, db')) := by
  constructor
  · intro pr db' h
    cases hfind : findUser db req.authorID with
    | none => simp [CreatePR, hfind] at h
    | some author =>
      by_cases htaken : db.pullRequests.any (fun p => p.id == req.ID) = true
      · simp [CreatePR, hfind, htaken] at h
      · have htf : db.pullRequests.any (fun p => p.id == req.ID) = false :=
          Bool.eq_false_iff.mpr htaken
        simp only [CreatePR, hfind, htf, Bool.false_eq_true, if_false,
          Prod.mk.injEq, Except.ok.injEq] at h
        obtain ⟨hpr, hdb⟩ := h
        subst hpr
        have haid : author.id = req.authorID := (findUser_some db req.authorID author hfind).2
        refine ⟨author, rfl, ?_, ?_, ?_, ?_⟩
        · intro hmem
          have hinpool : req.authorID ∈ candidatePool db author :=
            selectRandomReviewers_subset shuffle hsh (candidatePool db author) 2 _ hmem
          obtain ⟨u, _, _, _, _, hne⟩ :=
            mem_candidatePool db author req.authorID hinpool
          exact hne haid.symm
        · exact selectRandomReviewers_length shuffle hsh (candidatePool db author) 2
        · intro rid hmem
          have hinpool : rid ∈ candidatePool db author :=
            selectRandomReviewers_subset shuffle hsh (candidatePool db author) 2 _ hmem
          obtain ⟨u, humem, huid, huteam, huact, _⟩ :=
            mem_candidatePool db author rid hinpool
          exact ⟨u, humem, huid, huteam, huact⟩
        · intro hempty
          show selectRandomReviewers shuffle (candidatePool db author) 2 = []
          rw [hempty]
          rfl
  · intro author hfind hfree hempty
    have hrev : selectRandomReviewers shuffle (candidatePool db author) 2 = [] := by
      rw [hempty]
      rfl
    refine ⟨{ db with
        pullRequests := db.pullRequests ++
          [{ id := req.ID, name := req.name, authorID := req.authorID,
             status := .Open, createdAt := now, mergedAt := none }],
        prReviewers := db.prReviewers ++ assignRows req.ID [] now }, ?_⟩
    simp only [CreatePR, hfind, hfree, Bool.false_eq_true, if_false, hrev]

/-- Witness for C1: with the identity shuffle on `dbT`, creating `p2` by
the sole member `E` of team `S` (empty pool) succeeds with no reviewers,
and any successful creation satisfies the reviewer constraints. -/
theorem CreatePR_reviewer_spec_witness :
    (∀ pr db', CreatePR dbT (fun l => l)
        { ID := "p2", name := "y", authorID := "E" } 6 = (.ok pr, db') →
      ∃ author, findUser dbT "E" = some author ∧
        "E" ∉ pr.assignedReviewers ∧
        pr.assignedReviewers.length = min 2 (candidatePool dbT author).length ∧
        (∀ rid ∈ pr.assignedReviewers, ∃ u ∈ dbT.users,
          u.id = rid ∧ u.teamName = author.teamName ∧ u.isActive = true) ∧
        (candidatePool dbT author = [] → pr.assignedReviewers = [])) ∧
    (∀ author, findUser dbT "E" = some author →
      dbT.pullRequests.any (fun p => p.id == "p2") = false →
      candidatePool dbT author = [] →
      ∃ db', CreatePR dbT (fun l => l)
          { ID := "p2", name := "y", authorID := "E" } 6 =
        (.ok { id := "p2", name := "y", authorID := "E",
               status := .Open, assignedReviewers := [], createdAt := 6,
               mergedAt := none }, db')) :=
  CreatePR_reviewer_spec dbT (fun l => l)
    { ID := "p2", name := "y", authorID := "E" } 6 (fun l => List.Perm.refl l)

/-- The conflict-update branch of `upsertUser` keeps the list of user ids
unchanged. -/
theorem map_id_update (users : List User) (m : User) (t : String) :
    ((users.map (fun u =>
        if u.id == m.id then
          { u with username := m.username, teamName := t, isActive := m.isActive }
        else u)).map (fun u => u.id)) = users.map (fun u => u.id) := by
  induction users with
  | nil => rfl
  | cons a rest ih =>
    simp only [List.map_cons, ih]
    congr 1
    by_cases hid : a.id = m.id <;> simp [hid]

/-- One member upsert preserves uniqueness of user ids. -/
theorem upsertUser_ids_nodup (users : List User) (m : User) (t : String)
    (h : (users.map (fun u => u.id)).Nodup) :
    ((upsertUser users m t).map (fun u => u.id)).Nodup := by
  unfold upsertUser
  by_cases hany : users.any (fun u => u.id == m.id) = true
  · rw [if_pos hany, map_id_update]
    exact h
  · rw [if_neg hany]
    have hnotin : m.id ∉ users.map (fun u => u.id) := by
      intro hmem
      obtain ⟨u, hu, hid⟩ := List.mem_map.mp hmem
      exact hany (List.any_eq_true.mpr ⟨u, hu, by simp [hid]⟩)
    simp only [List.map_append, List.map_cons, List.map_nil]
    rw [List.nodup_append]
    exact ⟨h, List.nodup_singleton _, by
      intro a ha hb
      simp only [List.mem_singleton] at hb
      exact hnotin (hb ▸ ha)⟩

/-- After upserting member `m`, some stored row carries `m`'s id with the
member's username and active flag and the upsert's team. -/
theorem upsertUser_mem_self (users : List User) (m : User) (t : String) :
    ∃ u ∈ upsertUser users m t, u.id = m.id ∧ u.username = m.username ∧
      u.teamName = t ∧ u.isActive = m.isActive := by
  unfold upsertUser
  by_cases hany : users.any (fun u => u.id == m.id) = true
  · rw [if_pos hany]
    obtain ⟨u₀, hu₀, hid⟩ := List.any_eq_true.mp hany
    have hid' : u₀.id = m.id := by simpa using hid
    refine ⟨{ u₀ with username := m.username, teamName := t, isActive := m.isActive },
      List.mem_map.mpr ⟨u₀, hu₀, by simp [hid']⟩, hid', rfl, rfl, rfl⟩
  · rw [if_neg hany]
    exact ⟨{ m with teamName := t },
      List.mem_append_right _ (List.mem_singleton.mpr rfl), rfl, rfl, rfl, rfl⟩

/-- Upserting a member with a different id leaves a stored row untouched. -/
theorem upsertUser_mem_other (users : List User) (m : User) (t : String) (u : User)
    (hu : u ∈ users) (hne : u.id ≠ m.id) : u ∈ upsertUser users m t := by
  unfold upsertUser
  by_cases hany : users.any (fun v => v.id == m.id) = true
  · rw [if_pos hany]
    exact List.mem_map.mpr ⟨u, hu, by simp [hne]⟩
  · rw [if_neg hany]
    exact List.mem_append_left _ hu

/-- The member-insertion loop preserves uniqueness of user ids. -/
theorem upsertUsers_nodup (members : List User) : ∀ (users : List User) (t : String),
    (users.map (fun u => u.id)).Nodup →
    ((upsertUsers users members t).map (fun u => u.id)).Nodup := by
  induction members with
  | nil => intro users t h; exact h
  | cons m rest ih =>
    intro users t h
    exact ih (upsertUser users m t) t (upsertUser_ids_nodup users m t h)

/-- A stored row whose id no later member touches survives the loop. -/
theorem upsertUsers_mem_preserve (members : List User) :
    ∀ (users : List User) (t : String) (u : User), u ∈ users →
    (∀ m ∈ members, u.id ≠ m.id) → u ∈ upsertUsers users members t := by
  induction members with
  | nil => intro users t u hu _; exact hu
  | cons m rest ih =>
    intro users t u hu hall
    exact ih (upsertUser users m t) t u
      (upsertUser_mem_other users m t u hu (hall m (List.mem_cons_self m rest)))
      (fun m' hm' => hall m' (List.mem_cons_of_mem m hm'))

/-- With pairwise-distinct member ids, every member ends up recorded once
with its username, active flag, and the new team. -/
theorem upsertUsers_mem_each (members : List User) : ∀ (users : List User) (t : String),
    (members.map (fun u => u.id)).Nodup →
    ∀ m ∈ members, ∃ u ∈ upsertUsers users members t,
      u.id = m.id ∧ u.username = m.username ∧ u.teamName = t ∧
      u.isActive = m.isActive := by
  induction members with
  | nil => intro users t _ m hm; simp at hm
  | cons m0 rest ih =>
    intro users t hnd m hm
    rw [List.map_cons, List.nodup_cons] at hnd
    rcases List.mem_cons.mp hm with rfl | hmr
    · obtain ⟨u, hu, hid, hun, hteam, hact⟩ := upsertUser_mem_self users m t
      have hne : ∀ m' ∈ rest, u.id ≠ m'.id := by
        intro m' hm' heq
        refine hnd.1 (List.mem_map.mpr ⟨m', hm', ?_⟩)
        show m'.id = m.id
        rw [← heq]
        exact hid
      exact ⟨u, upsertUsers_mem_preserve rest (upsertUser users m t) t u hu hne,
        hid, hun, hteam, hact⟩
    · exact ih (upsertUser users m0 t) t hnd.2 m hmr

/-- C7: `CreateTeam` fails with `TEAM_EXISTS` (store unchanged) whenever the
team name is taken; a successful creation upserts members in place, so ids
stay pairwise distinct and each member (given distinct request ids) is
stored once with its username, active flag, and the new team. -/
theorem CreateTeam_spec (db : DB) (team : Team) :
    (team.name ∈ db.teams → CreateTeam db team = (.error .teamExists, db)) ∧
    (team.name ∉ db.teams →
      ∃ db', CreateTeam db team = (.ok (), db') ∧
        ((db.users.map (fun u => u.id)).Nodup → (db'.users.map (fun u => u.id)).Nodup) ∧
        ((team.members.map (fun u => u.id)).Nodup →
          ∀ m ∈ team.members, ∃ u ∈ db'.users,
            u.id = m.id ∧ u.username = m.username ∧ u.teamName = team.name ∧
            u.isActive = m.isActive)) := by
  constructor
  · intro hmem
    have hc : db.teams.contains team.name = true := List.elem_eq_true_of_mem hmem
    simp [CreateTeam, hc, hmem]
  · intro hnot
    have hc : db.teams.contains team.name = false := by
      rw [Bool.eq_false_iff]
      intro hcon
      exact hnot (List.mem_of_elem_eq_true hcon)
    refine ⟨{ db with
        teams := db.teams ++ [team.name],
        users := upsertUsers db.users team.members team.name },
      by simp [CreateTeam, hc, hnot], ?_, ?_⟩
    · intro hnd
      exact upsertUsers_nodup team.members db.users team.name hnd
    · intro hnd m hm
      exact upsertUsers_mem_each team.members db.users team.name hnd m hm

/-- Witness for C7: the name `T` is taken in `dbT` so creating it fails,
while creating team `U` (updating `A` in place and adding `F`) succeeds
with the stated properties. -/
theorem CreateTeam_spec_witness :
    CreateTeam dbT { name := "T", members := [] } = (.error .teamExists, dbT) ∧
    (∃ db', CreateTeam dbT { name := "U", members :=
        [{ id := "A", username := "al2", teamName := "", isActive := false },
         { id := "F", username := "fred", teamName := "", isActive := true }] } =
          (.ok (), db') ∧
      ((dbT.users.map (fun u => u.id)).Nodup → (db'.users.map (fun u => u.id)).Nodup) ∧
      ((([{ id := "A", username := "al2", teamName := "", isActive := false },
          { id := "F", username := "fred", teamName := "", isActive := true }] :
            List User).map (fun u => u.id)).Nodup →
        ∀ m ∈ ([{ id := "A", username := "al2", teamName := "", isActive := false },
                { id := "F", username := "fred", teamName := "", isActive := true }] :
                  List User), ∃ u ∈ db'.users,
          u.id = m.id ∧ u.username = m.username ∧ u.teamName = "U" ∧
          u.isActive = m.isActive)) :=
  ⟨(CreateTeam_spec dbT { name := "T", members := [] }).1 (by decide),
   (CreateTeam_spec dbT { name := "U", members :=
      [{ id := "A", username := "al2", teamName := "", isActive := false },
       { id := "F", username := "fred", teamName := "", isActive := true }] }).2
     (by decide)⟩

/-- C8: `GetUserReviews` fails with `NOT_FOUND` exactly when the user id is
absent; for an existing user it returns precisely the PRs carrying a
reviewer row for that user (the join), ordered by creation time
descending. -/
theorem GetUserReviews_spec (db : DB) (userID : String) :
    ((¬ ∃ u ∈ db.users, u.id = userID) →
      GetUserReviews db userID = .error .notFound) ∧
    ((∃ u ∈ db.users, u.id = userID) →
      ∃ prs, GetUserReviews db userID = .ok prs ∧
        prs.Perm ((db.pullRequests.filter (fun pr =>
            db.prReviewers.any (fun rw =>
              rw.prID == pr.id && rw.reviewerID == userID))).map rowToPullRequest) ∧
        List.Pairwise (fun a b => b.createdAt ≤ a.createdAt) prs) := by
  constructor
  · intro hno
    have hb : db.users.any (fun u => u.id == userID) = false := by
      rw [Bool.eq_false_iff]
      intro hany
      obtain ⟨u, hu, hid⟩ := List.any_eq_true.mp hany
      exact hno ⟨u, hu, by simpa using hid⟩
    simp [GetUserReviews, hb]
  · intro hyes
    obtain ⟨u, hu, hid⟩ := hyes
    have hb : db.users.any (fun v => v.id == userID) = true :=
      List.any_eq_true.mpr ⟨u, hu, by simp [hid]⟩
    refine ⟨(List.insertionSort createdDesc (db.pullRequests.filter (fun pr =>
        db.prReviewers.any (fun rw =>
          rw.prID == pr.id && rw.reviewerID == userID)))).map rowToPullRequest,
      by simp [GetUserReviews, hb], ?_, ?_⟩
    · exact (List.perm_insertionSort createdDesc _).map rowToPullRequest
    · have hs := List.sorted_insertionSort createdDesc
        (db.pullRequests.filter (fun pr =>
          db.prReviewers.any (fun rw => rw.prID == pr.id && rw.reviewerID == userID)))
      rw [List.pairwise_map]
      exact hs

/-- Witness for C8: in `dbP` the absent user `Z` gets `NOT_FOUND`, while
reviewer `B` gets an ordered list of the PRs that carry a reviewer row for
`B`. -/
theorem GetUserReviews_spec_witness :
    GetUserReviews dbP "Z" = .error .notFound ∧
    (∃ prs, GetUserReviews dbP "B" = .ok prs ∧
      prs.Perm ((dbP.pullRequests.filter (fun pr =>
          dbP.prReviewers.any (fun rw =>
            rw.prID == pr.id && rw.reviewerID == "B"))).map rowToPullRequest) ∧
      List.Pairwise (fun a b => b.createdAt ≤ a.createdAt) prs) :=
  ⟨(GetUserReviews_spec dbP "Z").1 (by decide),
   (GetUserReviews_spec dbP "B").2 (by decide)⟩

end ReviewService
